import Mathlib

/-!
Verification of the thread-safe counter examples.

The repository contains small Rust programs that spawn `NTHREADS` worker
threads, each performing `NITERATIONS` increments of one counter, and read
the counter after joining all workers.  Two working programs exist:

* `rust-working-example/concurrent.rs` — a `Counter { val: u32 }` guarded by
  `Arc<Mutex<...>>`; each worker calls `counter.lock().unwrap().increment_counter()`.
* `rust-working-example/alt_concurrent.rs` — an `Arc<AtomicUsize>`; each worker
  calls `counter.fetch_add(1, Ordering::SeqCst)`.

and a deliberately broken one, `rust-intermediate-attempts/concurrent2.rs`,
whose closures capture a *copy* of a plain `u32` counter by move.

Concurrency is embedded by quantifying over schedules: because under both
working strategies every increment is one indivisible read-modify-write on
the shared cell (the mutex is held across the whole `+= 1`; `fetch_add` is a
single hardware operation), any execution of a run is described by the
sequence in which the individual increments hit the shared cell.  Every such
sequence is a permutation of the multiset containing `n` increments from each
of the `w` workers, so theorems are stated over all permutations of that
multiset — a superset of the real interleavings (which additionally preserve
per-worker order, irrelevant here).
-/

/-- Modulus of Rust's `u32` (the type of `Counter.val` in concurrent.rs). -/
def u32Mod : Nat := 2 ^ 32

/-- Modulus of Rust's `usize` (64-bit targets; type of the atomic counter
in alt_concurrent.rs). -/
def usizeMod : Nat := 2 ^ 64

/-- `static NTHREADS: u32 = 10;` (concurrent.rs line 4, alt_concurrent.rs line 5). -/
def NTHREADS : Nat := 10

/-- `static NITERATIONS: u32 = 1_000_000;` (concurrent.rs line 5, alt_concurrent.rs line 6). -/
def NITERATIONS : Nat := 1000000

/-- `struct Counter { val: u32 }` from concurrent.rs lines 7-9.
The `u32` field is embedded as a natural number; all operations reduce it
modulo `2^32` where overflow is possible. -/
structure Counter where
  val : Nat
deriving DecidableEq

/-- `fn increment_counter(&mut self) { self.val += 1; }` from concurrent.rs
lines 12-14.  Rust `+=` on `u32` wraps modulo `2^32` (release semantics). -/
def Counter.increment_counter (c : Counter) : Counter :=
  ⟨(c.val + 1) % u32Mod⟩

/-- `AtomicUsize` used in alt_concurrent.rs line 9. -/
structure AtomicUsize where
  val : Nat
deriving DecidableEq

/-- `AtomicUsize::new(v)` (alt_concurrent.rs line 9 with `v = 0`). -/
def AtomicUsize.new (v : Nat) : AtomicUsize :=
  ⟨v % usizeMod⟩

/-- `fetch_add(k, Ordering::SeqCst)` from alt_concurrent.rs line 17:
returns the previous value and stores the wrapped sum in one indivisible
operation. -/
def AtomicUsize.fetch_add (a : AtomicUsize) (k : Nat) : Nat × AtomicUsize :=
  (a.val, ⟨(a.val + k) % usizeMod⟩)

/-- An atomic load (`Ordering`-insensitive in this sequential embedding):
returns the current value and leaves the cell unchanged. -/
def AtomicUsize.load (a : AtomicUsize) : Nat × AtomicUsize :=
  (a.val, a)

/-- The multiset of increments of a run: worker `t` (for `t < w`) contributes
`n` increments, tagged by its id.  A concrete execution's schedule is a
permutation of this list. -/
def workerIncrements : Nat → Nat → List Nat
  | 0, _ => []
  | w + 1, n => List.replicate n w ++ workerIncrements w n

/-- `sched` is a possible order in which the `w * n` increments of a run with
`w` workers of `n` increments each reach the shared counter. -/
def isSchedule (w n : Nat) (sched : List Nat) : Prop :=
  sched.Perm (workerIncrements w n)

/-- Final `Counter` state of concurrent.rs's run under a given schedule:
the mutex is held across each whole `increment_counter` call (concurrent.rs
line 26), so the shared cell sees the increments one after the other. -/
def mutexRun (sched : List Nat) : Counter :=
  sched.foldl (fun c _ => c.increment_counter) ⟨0⟩

/-- Final `AtomicUsize` state of alt_concurrent.rs's run under a given
schedule: each `fetch_add(1, SeqCst)` (line 17) is indivisible. -/
def atomicRun (sched : List Nat) : AtomicUsize :=
  sched.foldl (fun a _ => (a.fetch_add 1).2) (AtomicUsize.new 0)

theorem workerIncrements_length (w n : Nat) :
    (workerIncrements w n).length = w * n := by
  induction w with
  | zero => simp [workerIncrements]
  | succ w ih =>
    simp [workerIncrements, ih, Nat.succ_mul]
    omega

theorem workerIncrements_mem_lt (w n : Nat) :
    ∀ x ∈ workerIncrements w n, x < w := by
  induction w with
  | zero => simp [workerIncrements]
  | succ w ih =>
    intro x hx
    simp only [workerIncrements, List.mem_append] at hx
    rcases hx with hx | hx
    · have hxw := List.eq_of_mem_replicate hx
      omega
    · exact Nat.lt_succ_of_lt (ih x hx)

theorem workerIncrements_count (w n t : Nat) (h : t < w) :
    (workerIncrements w n).count t = n := by
  induction w with
  | zero => omega
  | succ w ih =>
    simp only [workerIncrements, List.count_append, List.count_replicate]
    rcases Nat.lt_succ_iff_lt_or_eq.mp h with h' | h'
    · have hne : t ≠ w := Nat.ne_of_lt h'
      simp [ih h', hne, Ne.symm hne]
    · subst h'
      have hzero : (workerIncrements t n).count t = 0 :=
        List.count_eq_zero.mpr (fun hm => absurd (workerIncrements_mem_lt t n t hm) (lt_irrefl t))
      simp [hzero]

theorem foldl_add_mod (M : Nat) (l : List Nat) (v : Nat) (hv : v < M) :
    l.foldl (fun a _ => (a + 1) % M) v = (v + l.length) % M := by
  induction l generalizing v with
  | nil => simpa using (Nat.mod_eq_of_lt hv).symm
  | cons x l ih =>
    have hM : 0 < M := Nat.lt_of_le_of_lt (Nat.zero_le v) hv
    have h1 : (v + 1) % M < M := Nat.mod_lt _ hM
    simp only [List.foldl_cons, List.length_cons]
    rw [ih _ h1, Nat.mod_add_mod]
    congr 1
    omega

theorem isSchedule_length {w n : Nat} {sched : List Nat} (h : isSchedule w n sched) :
    sched.length = w * n := by
  rw [h.length_eq, workerIncrements_length]

theorem mutexRun_val (sched : List Nat) :
    (mutexRun sched).val = sched.length % u32Mod := by
  have key : ∀ (l : List Nat) (c : Counter), c.val < u32Mod →
      (l.foldl (fun c _ => c.increment_counter) c).val = (c.val + l.length) % u32Mod := by
    intro l
    induction l with
    | nil => intro c hc; simpa using (Nat.mod_eq_of_lt hc).symm
    | cons x l ih =>
      intro c hc
      have hM : 0 < u32Mod := Nat.lt_of_le_of_lt (Nat.zero_le _) hc
      have h1 : (c.val + 1) % u32Mod < u32Mod := Nat.mod_lt _ hM
      simp only [List.foldl_cons, List.length_cons]
      rw [ih c.increment_counter h1]
      show ((c.val + 1) % u32Mod + l.length) % u32Mod = _
      rw [Nat.mod_add_mod]
      congr 1
      omega
  simpa using key sched ⟨0⟩ (by simp [u32Mod])

theorem atomicRun_val (sched : List Nat) :
    (atomicRun sched).val = sched.length % usizeMod := by
  have key : ∀ (l : List Nat) (a : AtomicUsize), a.val < usizeMod →
      (l.foldl (fun a _ => (a.fetch_add 1).2) a).val = (a.val + l.length) % usizeMod := by
    intro l
    induction l with
    | nil => intro a ha; simpa using (Nat.mod_eq_of_lt ha).symm
    | cons x l ih =>
      intro a ha
      have hM : 0 < usizeMod := Nat.lt_of_le_of_lt (Nat.zero_le _) ha
      have h1 : (a.val + 1) % usizeMod < usizeMod := Nat.mod_lt _ hM
      simp only [List.foldl_cons, List.length_cons]
      rw [ih (a.fetch_add 1).2 h1]
      show ((a.val + 1) % usizeMod + l.length) % usizeMod = _
      rw [Nat.mod_add_mod]
      congr 1
      omega
  have h0 : (AtomicUsize.new 0).val = 0 := by simp [AtomicUsize.new]
  have := key sched (AtomicUsize.new 0) (by rw [h0]; simp [usizeMod])
  simpa [atomicRun, h0] using this

/-- Modelled from the spec: the strategy tag of SyncCounter ("a
synchronization strategy tag (Atomic | Mutex)", §3); the SyncCounter
component itself is absent from src/, which only holds example `main`s. -/
inductive Strategy where
  | atomic
  | mutex
deriving DecidableEq

/-- Modelled from the spec: the error taxonomy of §7 (ConfigurationError,
WorkerFailure, PoisonedLock); no error type exists in src/. -/
inductive RunError where
  | ConfigurationError
  | WorkerFailure
  | PoisonedLock
deriving DecidableEq

/-- Modelled from the spec: SyncCounter (§3, §4.1), "an internal unsigned
integer value; a synchronization strategy tag"; absent from src/. -/
structure SyncCounter where
  strategy : Strategy
  value : Nat
deriving DecidableEq

/-- Modelled from the spec: `new(strategy) -> SyncCounter`: constructs with
value 0, no failure conditions (§4.1); absent from src/. -/
def SyncCounter.new (s : Strategy) : SyncCounter :=
  ⟨s, 0⟩

/-- Modelled from the spec: `increment()` atomically adds 1 to the internal
value (§4.1) — a hardware fetch-and-add under the atomic strategy, a
lock/read/add-1/write/unlock critical section under the mutex strategy;
absent from src/.  In both cases the indivisible effect on the shared value
is exactly +1. -/
def SyncCounter.increment (c : SyncCounter) : SyncCounter :=
  match c.strategy with
  | .atomic => ⟨c.strategy, c.value + 1⟩
  | .mutex => ⟨c.strategy, c.value + 1⟩

/-- Modelled from the spec: `get() -> unsigned integer`: returns the current
value (§4.1); absent from src/. -/
def SyncCounter.get (c : SyncCounter) : Nat :=
  c.value

/-- Modelled from the spec: the observable outcome of one `run` of the
LoadHarness (§4.2, §6): the result (final value or error), how many worker
tasks were spawned, and how many increments were performed; absent from
src/ (the example `main`s have a fixed configuration and no error path). -/
structure RunOutcome where
  result : Except RunError Nat
  tasksSpawned : Nat
  incrementsPerformed : Nat

/-- Modelled from the spec: `run(worker_count, increments_per_worker,
strategy)` (§4.2), parameterised by the schedule in which the workers'
increments reach the shared counter.  `worker_count = 0` is a
ConfigurationError detected before spawning (§7); otherwise one SyncCounter
is constructed, `w` tasks are spawned, every increment of the schedule is
applied, and the final value is read with `get` after the joins. -/
def runH (w _n : Nat) (s : Strategy) (sched : List Nat) : RunOutcome :=
  if w = 0 then
    ⟨.error .ConfigurationError, 0, 0⟩
  else
    ⟨.ok ((sched.foldl (fun c _ => c.increment) (SyncCounter.new s)).get), w, sched.length⟩

theorem syncCounter_foldl_get (s : Strategy) (l : List Nat) :
    (l.foldl (fun c _ => c.increment) (SyncCounter.new s)).get = l.length := by
  have key : ∀ (l : List Nat) (c : SyncCounter),
      (l.foldl (fun c _ => c.increment) c).get = c.get + l.length := by
    intro l
    induction l with
    | nil => intro c; simp
    | cons x l ih =>
      intro c
      simp only [List.foldl_cons, List.length_cons]
      rw [ih c.increment]
      have : c.increment.get = c.get + 1 := by
        cases c with
        | mk s v => cases s <;> rfl
      omega
  simpa [SyncCounter.new, SyncCounter.get] using key l (SyncCounter.new s)

/-- Modelled from the spec: the join-time outcome of one worker task (§7
WorkerFailure): the task either completed all of its increments or
terminated abnormally after `k` of them; absent from src/ (the examples
discard join results). -/
inductive WorkerOutcome where
  | completed
  | failedAfter (k : Nat)
deriving DecidableEq

/-- Number of increments a worker with the given outcome actually performed
in a run configured for `n` increments per worker. -/
def WorkerOutcome.performed (n : Nat) : WorkerOutcome → Nat
  | .completed => n
  | .failedAfter _ => 0

/-- Whether a join outcome is an abnormal termination. -/
def WorkerOutcome.isFailure : WorkerOutcome → Bool
  | .completed => false
  | .failedAfter _ => true

/-- Modelled from the spec: `run` with join-with-result semantics (§4.2,
§7): every worker's join outcome is inspected after the joins; any abnormal
termination is surfaced as a run-level WorkerFailure instead of a final
value; absent from src/ (the examples use `let _ = child.join()`). -/
def runWithOutcomes (w n : Nat) (s : Strategy) (outcomes : List WorkerOutcome) :
    Except RunError Nat :=
  if w = 0 then .error .ConfigurationError
  else if outcomes.any WorkerOutcome.isFailure then .error .WorkerFailure
  else .ok (outcomes.foldl (fun v o => v + o.performed n) (SyncCounter.new s).get)

/-- Modelled from the spec: the mutex-strategy counter together with its
lock's poison state (§7 PoisonedLock): `poisoned` records that a worker
failed while holding the lock.  The standard-library mutex used at
concurrent.rs line 26 is not part of src/. -/
structure MutexCounter where
  poisoned : Bool
  counter : Counter
deriving DecidableEq

/-- A worker failing while holding the lock leaves the lock poisoned. -/
def MutexCounter.poison (m : MutexCounter) : MutexCounter :=
  ⟨true, m.counter⟩

/-- Modelled from the spec: `increment` acquiring the lock: on a poisoned
lock it immediately surfaces PoisonedLock to the caller (no blocking wait
can occur, the failed holder is gone); otherwise it performs the guarded
`increment_counter`. -/
def MutexCounter.lockIncrement (m : MutexCounter) : Except RunError MutexCounter :=
  if m.poisoned then .error .PoisonedLock
  else .ok ⟨m.poisoned, m.counter.increment_counter⟩

/-- Modelled from the spec: `get` acquiring the lock: on a poisoned lock it
immediately surfaces PoisonedLock; otherwise it returns the guarded value. -/
def MutexCounter.lockGet (m : MutexCounter) : Except RunError Nat :=
  if m.poisoned then .error .PoisonedLock
  else .ok m.counter.val

/-- One worker of concurrent2.rs: `for _ in 0..NITERATIONS { counter += 1 }`
(lines 13-17), acting on the closure's own moved copy of the `u32`,
starting from the value the copy had when the closure was created. -/
def copyWorkerLoop (n v : Nat) : Nat :=
  (List.range n).foldl (fun a _ => (a + 1) % u32Mod) v

/-- Observable state of concurrent2.rs after all joins: `main`'s own
`counter` (initialised to 0 at line 7, never written by `main`, printed at
line 23) together with each worker's private moved copy (each `move`
closure captured a copy of `counter` while its value was 0, lines 11-17). -/
structure MovedRun where
  mainCounter : Nat
  workerCopies : List Nat

/-- concurrent2.rs generalised to `w` workers of `n` increments each: every
worker mutates only its own copy; the coordinating context's value is never
written. -/
def concurrent2Run (w n : Nat) : MovedRun :=
  { mainCounter := 0
    workerCopies := (List.range w).map (fun _ => copyWorkerLoop n 0) }

theorem performed_foldl (n : Nat) (outs : List WorkerOutcome) (acc : Nat)
    (h : ∀ o ∈ outs, o = WorkerOutcome.completed) :
    outs.foldl (fun v o => v + o.performed n) acc = acc + outs.length * n := by
  induction outs generalizing acc with
  | nil => simp
  | cons o outs ih =>
    have ho : o = WorkerOutcome.completed := h o (List.mem_cons_self o outs)
    simp only [List.foldl_cons, List.length_cons]
    rw [ih _ (fun o' ho' => h o' (List.mem_cons_of_mem _ ho')), ho]
    simp only [WorkerOutcome.performed, Nat.succ_mul]
    omega

/-- C1: for every worker count w ≥ 1 and per-worker increment count n ≥ 0, a
successful run with either strategy returns exactly w * n (in particular 0
for n = 0 without error), and instantiated on the working examples
(NTHREADS = 10, NITERATIONS = 1_000_000) the value read after all joins is
exactly 10_000_000 for both the mutex and the atomic program. -/
theorem c1_exact_count :
    (∀ (w n : Nat) (s : Strategy) (sched : List Nat), 1 ≤ w → isSchedule w n sched →
      (runH w n s sched).result = Except.ok (w * n)) ∧
    (∀ sched : List Nat, isSchedule NTHREADS NITERATIONS sched →
      (mutexRun sched).val = 10000000 ∧ (atomicRun sched).val = 10000000) := by
  constructor
  · intro w n s sched hw hs
    have hw0 : w ≠ 0 := by omega
    simp only [runH, if_neg hw0]
    rw [syncCounter_foldl_get, isSchedule_length hs]
  · intro sched hs
    have hlen : sched.length = 10000000 := by
      rw [isSchedule_length hs]
      decide
    refine ⟨?_, ?_⟩
    · rw [mutexRun_val, hlen]
      decide
    · rw [atomicRun_val, hlen]
      decide

/-- Witness for C1: the canonical schedule of the examples' configuration. -/
theorem c1_exact_count_witness :
    (runH 10 1000000 Strategy.mutex (workerIncrements 10 1000000)).result
        = Except.ok (10 * 1000000) ∧
    (mutexRun (workerIncrements NTHREADS NITERATIONS)).val = 10000000 :=
  ⟨c1_exact_count.1 10 1000000 Strategy.mutex (workerIncrements 10 1000000)
      (by decide) (List.Perm.refl _),
    (c1_exact_count.2 (workerIncrements NTHREADS NITERATIONS) (List.Perm.refl _)).1⟩

/-- C2: increment never loses an update: under every schedule each scheduled
increment is reflected exactly once in the final SyncCounter value (the
value equals the number of increments), and under contention (w = 50
workers of n = 100_000 increments each) both source strategies yield
exactly 5_000_000 on every trial. -/
theorem c2_no_lost_updates :
    (∀ (s : Strategy) (sched : List Nat),
      (sched.foldl (fun c _ => c.increment) (SyncCounter.new s)).get = sched.length) ∧
    (∀ sched : List Nat, isSchedule 50 100000 sched →
      (mutexRun sched).val = 5000000 ∧ (atomicRun sched).val = 5000000) := by
  refine ⟨syncCounter_foldl_get, ?_⟩
  intro sched hs
  have hlen : sched.length = 5000000 := by
    rw [isSchedule_length hs]
  refine ⟨?_, ?_⟩
  · rw [mutexRun_val, hlen]
    decide
  · rw [atomicRun_val, hlen]
    decide

/-- Witness for C2: the canonical contention schedule, 50 × 100_000. -/
theorem c2_no_lost_updates_witness :
    (mutexRun (workerIncrements 50 100000)).val = 5000000 ∧
    (atomicRun (workerIncrements 50 100000)).val = 5000000 :=
  c2_no_lost_updates.2 (workerIncrements 50 100000) (List.Perm.refl _)

/-- C3: construction yields value 0 for every strategy, with no failure
conditions, and a get immediately after new (before any increment) returns
0; likewise the source examples construct `Counter { val: 0 }` and
`AtomicUsize::new(0)`, whose first read is 0. -/
theorem c3_new_is_zero (s : Strategy) :
    (SyncCounter.new s).get = 0 ∧
    (Counter.mk 0).val = 0 ∧
    (AtomicUsize.new 0).load.1 = 0 := by
  refine ⟨rfl, rfl, ?_⟩
  simp [AtomicUsize.new, AtomicUsize.load]

/-- C4 as stated is false at the integer's upper bound: incrementing the u32
counter holding 2^32 - 1 = 4294967295 wraps to 0 instead of producing
v + 1. -/
theorem c4_increment_wrap_counterexample :
    (Counter.mk 4294967295).increment_counter.val = 0 ∧
    (Counter.mk 4294967295).increment_counter.val ≠ 4294967295 + 1 := by
  constructor
  · decide
  · decide

/-- C4 (amended): increment adds exactly 1 whenever the successor fits the
integer's width: for every u32 value v with v + 1 < 2^32,
`increment_counter` takes the mutex counter from v to exactly v + 1, and
for every usize value a with a + 1 < 2^64, `fetch_add 1` returns the prior
value a and stores exactly a + 1; a load returns the current value and
modifies nothing. -/
theorem c4_increment_adds_one (v a : Nat) (hv : v + 1 < u32Mod) (ha : a + 1 < usizeMod) :
    (Counter.mk v).increment_counter = Counter.mk (v + 1) ∧
    (AtomicUsize.mk a).fetch_add 1 = (a, AtomicUsize.mk (a + 1)) ∧
    ∀ u : AtomicUsize, u.load = (u.val, u) := by
  refine ⟨?_, ?_, fun u => rfl⟩
  · simp [Counter.increment_counter, Nat.mod_eq_of_lt hv]
  · simp [AtomicUsize.fetch_add, Nat.mod_eq_of_lt ha]

/-- Witness for the amended C4 at v = 5, a = 7. -/
theorem c4_increment_adds_one_witness :
    (Counter.mk 5).increment_counter = Counter.mk 6 ∧
    (AtomicUsize.mk 7).fetch_add 1 = (7, AtomicUsize.mk 8) :=
  ⟨(c4_increment_adds_one 5 7 (by decide) (by decide)).1,
    (c4_increment_adds_one 5 7 (by decide) (by decide)).2.1⟩

/-- C5: the two strategies are interchangeable: for every worker count,
per-worker increment count and schedule, the run outcome under the atomic
strategy equals the run outcome under the mutex strategy. -/
theorem c5_strategies_interchangeable (w n : Nat) (sched : List Nat) :
    runH w n Strategy.atomic sched = runH w n Strategy.mutex sched := by
  by_cases hw : w = 0
  · simp [runH, hw]
  · simp only [runH, if_neg hw, syncCounter_foldl_get]

/-- C6: run with worker_count = 0 returns ConfigurationError before any task
is spawned: zero tasks spawned and zero increments performed, for every
increments-per-worker value, every strategy and every schedule. -/
theorem c6_zero_workers_config_error (n : Nat) (s : Strategy) (sched : List Nat) :
    runH 0 n s sched =
      ⟨Except.error RunError.ConfigurationError, 0, 0⟩ := by
  simp [runH]

/-- C7: join outcomes are never discarded: with w joined workers, any
abnormal worker termination makes run surface WorkerFailure, and whenever
run does return a final value it is exactly w * n — run never silently
returns a value that differs from worker_count × increments_per_worker. -/
theorem c7_worker_failure_surfaced (w n : Nat) (s : Strategy)
    (outcomes : List WorkerOutcome) (hlen : outcomes.length = w) :
    (∀ o ∈ outcomes, o.isFailure = true →
      runWithOutcomes w n s outcomes = Except.error RunError.WorkerFailure) ∧
    (∀ v : Nat, runWithOutcomes w n s outcomes = Except.ok v → v = w * n) := by
  constructor
  · intro o ho hfail
    have hw : w ≠ 0 := by
      intro hw0
      rw [hw0, List.length_eq_zero] at hlen
      rw [hlen] at ho
      exact absurd ho (List.not_mem_nil o)
    have hany : outcomes.any WorkerOutcome.isFailure = true :=
      List.any_eq_true.mpr ⟨o, ho, hfail⟩
    simp [runWithOutcomes, hw, hany]
  · intro v hok
    by_cases hw : w = 0
    · simp [runWithOutcomes, hw] at hok
    · by_cases hany : outcomes.any WorkerOutcome.isFailure
      · simp [runWithOutcomes, hw, hany] at hok
      · have hall : ∀ o ∈ outcomes, o = WorkerOutcome.completed := by
          intro o ho
          have hnf : ¬ o.isFailure = true := by
            intro hf
            exact hany (List.any_eq_true.mpr ⟨o, ho, hf⟩)
          cases o with
          | completed => rfl
          | failedAfter k => exact absurd rfl hnf
        simp only [runWithOutcomes, if_neg hw, if_neg hany] at hok
        rw [performed_foldl n outcomes _ hall] at hok
        have := Except.ok.inj hok
        have h0 : (SyncCounter.new s).get = 0 := rfl
        rw [← this, hlen, h0]
        omega

/-- Witness for C7: a failed worker is surfaced, a clean 2 × 3 run returns
exactly 6. -/
theorem c7_worker_failure_surfaced_witness :
    runWithOutcomes 2 3 Strategy.atomic
        [WorkerOutcome.failedAfter 1, WorkerOutcome.completed]
      = Except.error RunError.WorkerFailure ∧
    (6 : Nat) = 2 * 3 :=
  ⟨(c7_worker_failure_surfaced 2 3 Strategy.atomic
        [WorkerOutcome.failedAfter 1, WorkerOutcome.completed] (by decide)).1
      (WorkerOutcome.failedAfter 1) (by decide) (by decide),
    (c7_worker_failure_surfaced 2 3 Strategy.atomic
        [WorkerOutcome.completed, WorkerOutcome.completed] (by decide)).2 6 (by rfl)⟩

/-- C8: after a worker fails while holding the mutex, a subsequent increment
or get does not hang: each immediately surfaces the distinguishable
PoisonedLock failure to its caller. -/
theorem c8_poisoned_lock_surfaced (m : MutexCounter) :
    m.poison.lockIncrement = Except.error RunError.PoisonedLock ∧
    m.poison.lockGet = Except.error RunError.PoisonedLock := by
  constructor
  · simp [MutexCounter.poison, MutexCounter.lockIncrement]
  · simp [MutexCounter.poison, MutexCounter.lockGet]

/-- C9: in the mis-constructed variant (concurrent2.rs) each worker
increments only its own moved copy — every private copy ends at n mod 2^32
— while the value observable by the coordinating context after all joins is
0, strictly less than w * n whenever any increments were configured. -/
theorem c9_moved_copy_undercounts (w n : Nat) (hpos : 0 < w * n) :
    (concurrent2Run w n).mainCounter = 0 ∧
    (concurrent2Run w n).mainCounter < w * n ∧
    ∀ c ∈ (concurrent2Run w n).workerCopies, c = n % u32Mod := by
  refine ⟨rfl, hpos, ?_⟩
  intro c hc
  simp only [concurrent2Run, List.mem_map] at hc
  obtain ⟨t, _, rfl⟩ := hc
  show (List.range n).foldl (fun a _ => (a + 1) % u32Mod) 0 = n % u32Mod
  rw [foldl_add_mod u32Mod (List.range n) 0 (by decide)]
  simp

/-- Witness for C9 at the example's configuration, w = 10, n = 1_000_000. -/
theorem c9_moved_copy_undercounts_witness :
    (concurrent2Run 10 1000000).mainCounter = 0 ∧
    (concurrent2Run 10 1000000).mainCounter < 10 * 1000000 :=
  ⟨(c9_moved_copy_undercounts 10 1000000 (by decide)).1,
    (c9_moved_copy_undercounts 10 1000000 (by decide)).2.1⟩

/-- C10: with NTHREADS = 10 and NITERATIONS = 1_000_000 the u32 counter
never overflows: under any schedule of the run, after any number k of
increments the counter holds exactly k — so every `val += 1` so far was
exact unsigned arithmetic with no wraparound and no read observes a wrapped
value — with k bounded by the total 10_000_000, which is below 2^32. -/
theorem c10_u32_never_overflows (sched : List Nat)
    (hs : isSchedule NTHREADS NITERATIONS sched) :
    (∀ k, k ≤ sched.length → (mutexRun (sched.take k)).val = k) ∧
    sched.length = 10000000 ∧ 10000000 < u32Mod := by
  have hlen : sched.length = 10000000 := by
    rw [isSchedule_length hs]
    decide
  have hM : (10000000 : Nat) < u32Mod := by decide
  refine ⟨?_, hlen, hM⟩
  intro k hk
  rw [mutexRun_val, List.length_take, Nat.min_eq_left hk, Nat.mod_eq_of_lt]
  omega

/-- Witness for C10: the canonical schedule, read before any increment. -/
theorem c10_u32_never_overflows_witness :
    (mutexRun ((workerIncrements NTHREADS NITERATIONS).take 0)).val = 0 ∧
    (workerIncrements NTHREADS NITERATIONS).length = 10000000 :=
  ⟨(c10_u32_never_overflows _ (List.Perm.refl _)).1 0 (Nat.zero_le _),
    (c10_u32_never_overflows _ (List.Perm.refl _)).2.1⟩
